import Mathlib

/-!
Shallow embedding of the `lib_minesweeper` crate (file
`src/lib_minesweeper/src/lib.rs`) of the `minesweeper_knights` repository,
together with theorems settling the specification claims about it.

Rust machine integers: `x` and `y` coordinates are `i32`, modelled as `Int`;
`width`, `height`, `mines` are `usize`, modelled as `Nat`; `missing_points`
and `count` are `i32`, modelled as `Int`.  No arithmetic in the library comes
near the overflow bounds on the inputs the claims quantify over, so wrap-around
is not modelled.
-/

/-- State of a single cell, from `enum MapElementCellState`. -/
inductive MapElementCellState where
  | Closed
  | Open
  | Flagged
deriving DecidableEq

/-- A cell of the grid, from `enum MapElement`: a `Mine` or a `Number`
carrying its knight-neighbour mine count. -/
inductive MapElement where
  | Mine (state : MapElementCellState)
  | Number (state : MapElementCellState) (count : Int)
deriving DecidableEq

/-- Game state of the whole board, from `enum BoardState`. -/
inductive BoardState where
  | NotReady
  | Ready
  | Playing
  | Won
  | Failed
deriving DecidableEq

/-- A coordinate pair, from `struct Point` (fields are `i32`). -/
structure Point where
  x : Int
  y : Int
deriving DecidableEq

/-- From `Point::new`: builds a `Point` from `usize` coordinates by casting
them to `i32`. -/
def Point.new (x y : Nat) : Point :=
  { x := (x : Int), y := (y : Int) }

/-- The board, from `struct Board`. -/
structure Board where
  map : List (List MapElement)
  missing_points : Int
  width : Nat
  height : Nat
  mines : Nat
  state : BoardState
deriving DecidableEq

/-- Helper mirroring the Rust pattern `matches!(x, Mine{..})`. -/
def isMine : MapElement → Bool
  | .Mine _ => true
  | .Number _ _ => false

/-- Helper recognising a `Number` cell in state `Closed` (the Rust pattern
`matches!(x, Some(Number { state: Closed, .. }))` applied to the payload). -/
def isClosedNumber : MapElement → Bool
  | .Number .Closed _ => true
  | _ => false

/-- The `state` field common to both `MapElement` variants. -/
def cellState : MapElement → MapElementCellState
  | .Mine st => st
  | .Number st _ => st

/-- Models Rust `Option::unwrap` on a cell lookup.  On the in-bounds,
well-formed accesses performed by the library the option is always `some`,
so the default value is never produced; it stands in for the Rust panic. -/
def unwrapEl (o : Option MapElement) : MapElement :=
  o.getD (.Number .Closed 0)

/-- From `Board::new`: counts the mines in the given map, takes the width
from the first row (Rust unwraps `map.iter().next()`; an empty map panics
there, modelled by the default `[]`), and starts `missing_points` at
`width * height - mines` with state `NotReady`. -/
def Board.new (map : List (List MapElement)) : Board :=
  let mines := (map.flatten.filter fun x => isMine x).length
  let width := (map.headD []).length
  let height := map.length
  { width := width
    height := height
    mines := mines
    missing_points := (width : Int) * (height : Int) - (mines : Int)
    state := .NotReady
    map := map }

/-- From `Board::at`: `none` when the point is out of bounds, otherwise the
cell `self.map[y][x]`.  The Rust double indexing can only panic on a ragged
map, modelled here by `List.getD` with a junk default. -/
def Board.at (b : Board) (p : Point) : Option MapElement :=
  if p.x < 0 ∨ (b.width : Int) ≤ p.x ∨ p.y < 0 ∨ (b.height : Int) ≤ p.y then
    none
  else
    some ((b.map.getD p.y.toNat []).getD p.x.toNat (.Number .Closed 0))

/-- From `Board::replace`: rebuilds the whole grid with `el` at `p`,
decrements `missing_points` when the replaced cell was a Closed `Number`
(`was_closed`), and recomputes the board state: `missing_points = 0` forces
`Won`, otherwise a `Ready` board becomes `Playing`, otherwise the state is
kept.  The Rust `unwrap` on the in-bounds lookups is `unwrapEl`. -/
def Board.replace (b : Board) (p : Point) (el : MapElement) : Board :=
  let was_closed : Bool := match b.at p with
    | some (.Number .Closed _) => true
    | _ => false
  let map := (List.range b.height).map fun y =>
    (List.range b.width).map fun x =>
      if Point.new x y = p then el else unwrapEl (b.at (Point.new x y))
  let missing_points := if was_closed then b.missing_points - 1 else b.missing_points
  { width := b.width
    height := b.height
    mines := b.mines
    missing_points := missing_points
    map := map
    state :=
      if missing_points = 0 then .Won
      else if b.state = .Ready then .Playing
      else b.state }

/-- From `Board::flag_item`: toggles Closed and Flagged (Open stays Open)
through `replace`.  The Rust `None => unreachable!()` arm (out-of-bounds
point, a caller contract violation) is modelled as returning the board
unchanged; every claim about `flag_item` is restricted to in-bounds points. -/
def Board.flag_item (b : Board) (p : Point) : Board :=
  match b.at p with
  | some (.Mine st) =>
      b.replace p (.Mine (match st with
        | .Closed => .Flagged
        | .Flagged => .Closed
        | .Open => .Open))
  | some (.Number st count) =>
      b.replace p (.Number (match st with
        | .Closed => .Flagged
        | .Flagged => .Closed
        | .Open => .Open) count)
  | none => b

/-- From `Board::surrounding_knight_points`: the chess-knight offsets of `p`,
built exactly as in the source (`flat_map` over `[-2,-1,1,2]`, inner filter
`x.abs() != y.abs()`), kept when `at` returns `some` (in bounds). -/
def Board.surrounding_knight_points (b : Board) (p : Point) : List Point :=
  (([-2, -1, 1, 2] : List Int).map fun dx =>
    (((([-2, -1, 1, 2] : List Int).filter fun dy => dx.natAbs ≠ dy.natAbs).map
      fun dy => Point.mk (p.x + dx) (p.y + dy)).filter
      fun q => (b.at q).isSome)).flatten

/-- Number of `Number` cells in state `Closed` on the board, counted through
`Board.at` over the coordinate rectangle.  This is the termination measure of
the cascade recursion; it is a verification artifact, not a source function. -/
def Board.closedNumbers (b : Board) : Nat :=
  ((List.range b.height).map fun y =>
    ((List.range b.width).filter fun x =>
      (b.at (Point.new x y)).any isClosedNumber).length).sum

/-- Fuel-indexed version of `Board::cascade_open_item`.  The Rust function
recurses on boards with strictly fewer Closed `Number` cells, so fuel
`Board.closedNumbers b + 1` always suffices (proved below as fuel
irrelevance); out of fuel returns `none`, a case that never arises at
sufficient fuel.  The `unwrap` on `self.at(p)` panics in Rust on an
out-of-bounds point; that arm is modelled as `none` and every claim is
restricted to in-bounds points. -/
def cascadeAux : Nat → Board → Point → Option Board
  | 0, _, _ => none
  | fuel + 1, b, p =>
    match b.at p with
    | none => none
    | some (.Number .Open _) | some (.Mine .Flagged) | some (.Number .Flagged _) =>
        none
    | some (.Number .Closed count) =>
        let board := b.replace p (.Number .Open count)
        if count = 0 then
          some ((board.surrounding_knight_points p).foldl
            (fun b' q => (cascadeAux fuel b' q).getD b') board)
        else
          some board
    | some (.Mine .Open) | some (.Mine .Closed) =>
        some { map := b.map, width := b.width, height := b.height,
               mines := b.mines, missing_points := b.missing_points,
               state := .Failed }

/-- From `Board::cascade_open_item`, instantiated with sufficient fuel. -/
def Board.cascade_open_item (b : Board) (p : Point) : Option Board :=
  cascadeAux (b.closedNumbers + 1) b p

/-- From `numbers_on_board`: recomputes every `Number` cell's count as the
number of mines among its knight neighbours, passes `Mine` cells through, and
forces the state to `Ready`.  The Rust `_ => unreachable!()` arm (a `Number`
with non-zero count, impossible on the NotReady boards this is called on) is
modelled as keeping the cell unchanged. -/
def numbers_on_board (board : Board) : Board :=
  { board with
    state := .Ready
    map := (List.range board.height).map fun y =>
      (List.range board.width).map fun x =>
        let point := Point.new x y
        match unwrapEl (board.at point) with
        | .Mine st => .Mine st
        | .Number st count =>
            if count = 0 then
              .Number st
                (((board.surrounding_knight_points point).filter
                  fun p' => (board.at p').any isMine).length : Int)
            else
              .Number st count }

/-- The eight chess-knight offsets, written out as the specification words
them: (dx, dy) with dx, dy drawn from the set of minus-two, minus-one, one,
two, and the absolute values distinct.  This is the spec-side formulation,
kept separate from the source's `flat_map` construction so the two can be
compared. -/
def knightOffsets : List (Int × Int) :=
  [(-2, -1), (-2, 1), (-1, -2), (-1, 2), (1, -2), (1, 2), (2, -1), (2, 1)]

/-- Spec-side knight-neighbour mine count at a point: the number of offsets
whose target cell is an in-bounds `Mine`. -/
def specKnightMineCount (b : Board) (p : Point) : Nat :=
  ((knightOffsets.filter fun d =>
    (b.at (Point.mk (p.x + d.1) (p.y + d.2))).any isMine)).length

/-- Well-formedness of the stored grid: exactly `height` rows of exactly
`width` cells.  `Board::new` and every grid the library builds satisfy it. -/
def Board.wf (b : Board) : Prop :=
  b.map.length = b.height ∧ ∀ row ∈ b.map, row.length = b.width

instance (b : Board) : Decidable b.wf := by
  unfold Board.wf; infer_instance

/-- The 5 by 2 fixture of the repository's tests: mines at (0,0) and (1,1),
all cells Closed, counts 0. -/
def map5x2 : List (List MapElement) :=
  [[.Mine .Closed, .Number .Closed 0, .Number .Closed 0, .Number .Closed 0,
    .Number .Closed 0],
   [.Number .Closed 0, .Mine .Closed, .Number .Closed 0, .Number .Closed 0,
    .Number .Closed 0]]

/-- The 5 by 2 fixture board, state NotReady. -/
def board5x2 : Board := Board.new map5x2

/-- The 5 by 2 fixture after count derivation, state Ready. -/
def bReady : Board := numbers_on_board board5x2

/-- A 1 by 1 board holding a single Closed `Number` cell, state NotReady. -/
def board1x1 : Board := Board.new [[.Number .Closed 0]]

/-- A 1 by 1 board holding a single Closed `Number` cell, after count
derivation: state Ready, `missing_points = 1`. -/
def bMini : Board := numbers_on_board board1x1

/-! Basic lemmas about grid lookup. -/

/-- Indexing a range-built list with a default. -/
theorem getD_range_map {α : Type} (w : Nat) (f : Nat → α) (i : Nat) (d : α) :
    ((List.range w).map f).getD i d = if i < w then f i else d := by
  rcases Nat.lt_or_ge i w with h | h
  · simp [List.getD_eq_getElem?_getD, List.getElem?_map, List.getElem?_range h, h]
  · have hnone : (List.range w)[i]? = none := by
      apply List.getElem?_eq_none
      simpa using h
    simp [List.getD_eq_getElem?_getD, List.getElem?_map, hnone, Nat.not_lt.mpr h]

/-- Cell lookup on a board whose map is a range-built grid. -/
theorem at_grid (w h : Nat) (g : Nat → Nat → MapElement) (b' : Board)
    (hw : b'.width = w) (hh : b'.height = h)
    (hm : b'.map = (List.range h).map fun y => (List.range w).map fun x => g y x)
    (q : Point) :
    b'.at q =
      if 0 ≤ q.x ∧ q.x < (w : Int) ∧ 0 ≤ q.y ∧ q.y < (h : Int) then
        some (g q.y.toNat q.x.toNat)
      else none := by
  unfold Board.at
  rw [hw, hh, hm]
  by_cases hin : 0 ≤ q.x ∧ q.x < (w : Int) ∧ 0 ≤ q.y ∧ q.y < (h : Int)
  · rw [if_neg (by omega), if_pos hin]
    have hy : q.y.toNat < h := by omega
    have hx : q.x.toNat < w := by omega
    rw [getD_range_map, if_pos hy, getD_range_map, if_pos hx]
  · rw [if_pos (by omega), if_neg hin]

/-- A lookup in bounds is `some`, and `unwrapEl` undoes the `some`. -/
theorem some_unwrapEl_at (b : Board) (q : Point)
    (h : 0 ≤ q.x ∧ q.x < (b.width : Int) ∧ 0 ≤ q.y ∧ q.y < (b.height : Int)) :
    some (unwrapEl (b.at q)) = b.at q := by
  unfold Board.at unwrapEl
  rw [if_neg (by omega)]
  rfl

/-- An in-bounds characterisation of `Board.at` returning `some`. -/
theorem at_isSome_iff (b : Board) (q : Point) :
    (b.at q).isSome = true ↔
      0 ≤ q.x ∧ q.x < (b.width : Int) ∧ 0 ≤ q.y ∧ q.y < (b.height : Int) := by
  unfold Board.at
  by_cases hin : 0 ≤ q.x ∧ q.x < (b.width : Int) ∧ 0 ≤ q.y ∧ q.y < (b.height : Int)
  · rw [if_neg (by omega)]
    simpa using hin
  · rw [if_pos (by omega)]
    simpa using hin

/-- A successful lookup implies the point is in bounds. -/
theorem bounds_of_at_eq_some (b : Board) (q : Point) (el : MapElement)
    (h : b.at q = some el) :
    0 ≤ q.x ∧ q.x < (b.width : Int) ∧ 0 ≤ q.y ∧ q.y < (b.height : Int) := by
  rw [← at_isSome_iff, h]
  rfl

/-- The cell `replace` writes and the cells it copies, seen through `at`. -/
theorem at_replace (b : Board) (p : Point) (el : MapElement) (q : Point) :
    (b.replace p el).at q =
      if 0 ≤ q.x ∧ q.x < (b.width : Int) ∧ 0 ≤ q.y ∧ q.y < (b.height : Int) then
        (if q = p then some el else b.at q)
      else none := by
  have hgrid := at_grid b.width b.height
    (fun y x => if Point.new x y = p then el else unwrapEl (b.at (Point.new x y)))
    (b.replace p el) rfl rfl rfl q
  rw [hgrid]
  by_cases hin : 0 ≤ q.x ∧ q.x < (b.width : Int) ∧ 0 ≤ q.y ∧ q.y < (b.height : Int)
  · rw [if_pos hin, if_pos hin]
    have hq : Point.new q.x.toNat q.y.toNat = q := by
      have h1 : ((q.x.toNat : Int)) = q.x := by omega
      have h2 : ((q.y.toNat : Int)) = q.y := by omega
      unfold Point.new
      rw [h1, h2]
    rw [hq]
    by_cases hpq : q = p
    · rw [if_pos hpq, if_pos hpq]
    · rw [if_neg hpq, if_neg hpq, some_unwrapEl_at b q hin]
  · rw [if_neg hin, if_neg hin]

/-! Counting lemmas for the termination measure. -/

/-- Filtering a range by two pointwise-equal predicates gives equal lengths. -/
theorem length_filter_range_congr (w : Nat) (P Q : Nat → Bool)
    (h : ∀ x, x < w → P x = Q x) :
    ((List.range w).filter P).length = ((List.range w).filter Q).length := by
  induction w with
  | zero => rfl
  | succ w IH =>
    rw [List.range_succ, List.filter_append, List.filter_append,
      List.length_append, List.length_append]
    rw [IH fun x hx => h x (Nat.lt_succ_of_lt hx)]
    have hw := h w (Nat.lt_succ_self w)
    simp [List.filter_cons, hw]

/-- Turning one `true` position of a range filter to `false` drops the
length by one. -/
theorem length_filter_range_update (w j : Nat) (hj : j < w) (P Q : Nat → Bool)
    (hPQ : ∀ x, x < w → x ≠ j → P x = Q x) (hPj : P j = false) (hQj : Q j = true) :
    ((List.range w).filter Q).length = ((List.range w).filter P).length + 1 := by
  induction w with
  | zero => omega
  | succ w IH =>
    rw [List.range_succ, List.filter_append, List.filter_append,
      List.length_append, List.length_append]
    rcases Nat.lt_or_ge j w with hjw | hjw
    · have hw : P w = Q w := hPQ w (Nat.lt_succ_self w) (by omega)
      rw [IH hjw fun x hx hxj => hPQ x (Nat.lt_succ_of_lt hx) hxj]
      simp [List.filter_cons, hw]
      omega
    · have hjweq : j = w := by omega
      subst hjweq
      have hcongr := length_filter_range_congr j P Q
        fun x hx => hPQ x (Nat.lt_succ_of_lt hx) (by omega)
      rw [hcongr]
      simp [List.filter_cons, hPj, hQj]

/-- Summing a range map of two pointwise-equal functions gives equal sums. -/
theorem sum_range_map_congr (h : Nat) (f g : Nat → Nat)
    (hfg : ∀ y, y < h → f y = g y) :
    ((List.range h).map f).sum = ((List.range h).map g).sum := by
  induction h with
  | zero => rfl
  | succ h IH =>
    rw [List.range_succ, List.map_append, List.map_append,
      List.sum_append, List.sum_append]
    rw [IH fun y hy => hfg y (Nat.lt_succ_of_lt hy)]
    simp [hfg h (Nat.lt_succ_self h)]

/-- Dropping one term of a range-map sum by one drops the sum by one. -/
theorem sum_range_map_update (h j : Nat) (hj : j < h) (f g : Nat → Nat)
    (hfg : ∀ y, y < h → y ≠ j → f y = g y) (hstep : f j = g j + 1) :
    ((List.range h).map f).sum = ((List.range h).map g).sum + 1 := by
  induction h with
  | zero => omega
  | succ h IH =>
    rw [List.range_succ, List.map_append, List.map_append,
      List.sum_append, List.sum_append]
    rcases Nat.lt_or_ge j h with hjh | hjh
    · rw [IH hjh fun y hy hyj => hfg y (Nat.lt_succ_of_lt hy) hyj]
      simp [hfg h (Nat.lt_succ_self h) (by omega)]
      omega
    · have hjheq : j = h := by omega
      subst hjheq
      rw [sum_range_map_congr j f g fun y hy => hfg y (Nat.lt_succ_of_lt hy) (by omega)]
      simp [hstep]
      omega

/-- Opening a Closed `Number` cell strictly decreases the measure. -/
theorem closedNumbers_replace_lt (b : Board) (p : Point) (c : Int)
    (h : b.at p = some (.Number .Closed c)) :
    (b.replace p (.Number .Open c)).closedNumbers < b.closedNumbers := by
  have hbnd := bounds_of_at_eq_some b p _ h
  have hpy : p.y.toNat < b.height := by omega
  have hpx : p.x.toNat < b.width := by omega
  have hb' : ∀ q : Point,
      (b.replace p (.Number .Open c)).at q =
        if 0 ≤ q.x ∧ q.x < (b.width : Int) ∧ 0 ≤ q.y ∧ q.y < (b.height : Int) then
          (if q = p then some (.Number .Open c) else b.at q)
        else none := at_replace b p _
  have hnewP : ∀ y x : Nat, y < b.height → x < b.width →
      ((b.replace p (.Number .Open c)).at (Point.new x y)).any isClosedNumber =
        if Point.new x y = p then false
        else (b.at (Point.new x y)).any isClosedNumber := by
    intro y x hy hx
    rw [hb']
    rw [if_pos (by unfold Point.new; refine ⟨by simp, by simp [hx], by simp, by simp [hy]⟩)]
    by_cases hqp : Point.new x y = p
    · rw [if_pos hqp, if_pos hqp]
      rfl
    · rw [if_neg hqp, if_neg hqp]
  have hcw : (b.replace p (.Number .Open c)).width = b.width := rfl
  have hch : (b.replace p (.Number .Open c)).height = b.height := rfl
  have hpnew : Point.new p.x.toNat p.y.toNat = p := by
    have h1 : ((p.x.toNat : Int)) = p.x := by omega
    have h2 : ((p.y.toNat : Int)) = p.y := by omega
    unfold Point.new
    rw [h1, h2]
  unfold Board.closedNumbers
  rw [hcw, hch]
  have hrow : ∀ y, y < b.height → y ≠ p.y.toNat →
      ((List.range b.width).filter fun x =>
        ((b.replace p (.Number .Open c)).at (Point.new x y)).any isClosedNumber).length =
      ((List.range b.width).filter fun x =>
        (b.at (Point.new x y)).any isClosedNumber).length := by
    intro y hy hyp
    apply length_filter_range_congr
    intro x hx
    rw [hnewP y x hy hx]
    rw [if_neg]
    intro hc'
    apply hyp
    have : (Point.new x y).y = p.y := by rw [hc']
    unfold Point.new at this
    simp at this
    omega
  have hrowp :
      ((List.range b.width).filter fun x =>
        (b.at (Point.new x p.y.toNat)).any isClosedNumber).length =
      ((List.range b.width).filter fun x =>
        ((b.replace p (.Number .Open c)).at (Point.new x p.y.toNat)).any isClosedNumber).length
        + 1 := by
    apply length_filter_range_update b.width p.x.toNat hpx
    · intro x hx hxp
      rw [hnewP p.y.toNat x hpy hx]
      rw [if_neg]
      intro hc'
      apply hxp
      have : (Point.new x p.y.toNat).x = p.x := by rw [hc']
      unfold Point.new at this
      simp at this
      omega
    · rw [hnewP p.y.toNat p.x.toNat hpy hpx, if_pos hpnew]
    · rw [hpnew, h]
      rfl
  have hsum := sum_range_map_update b.height p.y.toNat hpy
    (fun y => ((List.range b.width).filter fun x =>
      (b.at (Point.new x y)).any isClosedNumber).length)
    (fun y => ((List.range b.width).filter fun x =>
      ((b.replace p (.Number .Open c)).at (Point.new x y)).any isClosedNumber).length)
    (fun y hy hyp => (hrow y hy hyp).symm) hrowp
  rw [hsum]
  exact Nat.lt_succ_self _

/-! Fuel lemmas for the cascade recursion. -/

/-- The failed-board copy built in the mine branch keeps the measure. -/
theorem closedNumbers_mk_failed (b : Board) :
    (Board.mk b.map b.missing_points b.width b.height b.mines .Failed).closedNumbers
      = b.closedNumbers := rfl

/-- A successful cascade never increases the number of Closed `Number`
cells. -/
theorem cascadeAux_closedNumbers_le :
    ∀ (n : Nat) (b : Board) (p : Point) (b' : Board),
      cascadeAux n b p = some b' → b'.closedNumbers ≤ b.closedNumbers := by
  intro n
  induction n with
  | zero =>
    intro b p b' h
    simp [cascadeAux] at h
  | succ n IH =>
    have hfold : ∀ (pts : List Point) (acc : Board),
        (pts.foldl (fun b2 q => (cascadeAux n b2 q).getD b2) acc).closedNumbers
          ≤ acc.closedNumbers := by
      intro pts
      induction pts with
      | nil => intro acc; simp
      | cons q pts IHl =>
        intro acc
        rw [List.foldl_cons]
        refine le_trans (IHl _) ?_
        cases hc : cascadeAux n acc q with
        | none => simp
        | some b2 => simpa using IH acc q b2 hc
    intro b p b' h
    rw [cascadeAux] at h
    cases hat : b.at p with
    | none =>
      rw [hat] at h
      simp at h
    | some el =>
      rw [hat] at h
      match el with
      | .Number .Open c => simp at h
      | .Mine .Flagged => simp at h
      | .Number .Flagged c => simp at h
      | .Mine .Open =>
        rw [← Option.some.inj h]
        exact Nat.le_of_eq (closedNumbers_mk_failed b)
      | .Mine .Closed =>
        rw [← Option.some.inj h]
        exact Nat.le_of_eq (closedNumbers_mk_failed b)
      | .Number .Closed c =>
        have hlt := closedNumbers_replace_lt b p c hat
        by_cases hc0 : c = 0
        · simp only [hc0, if_pos rfl] at h
          rw [← Option.some.inj h]
          exact le_trans (hfold _ _) (Nat.le_of_lt (by simpa [hc0] using hlt))
        · simp only [if_neg hc0] at h
          rw [← Option.some.inj h]
          exact Nat.le_of_lt hlt

/-- With any two sufficient fuels the cascade computes the same result. -/
theorem cascadeAux_fuel_congr :
    ∀ (n m : Nat) (b : Board) (p : Point),
      b.closedNumbers < n → b.closedNumbers < m → cascadeAux n b p = cascadeAux m b p := by
  intro n
  induction n using Nat.strong_induction_on with
  | _ n IH =>
    intro m b p hn hm
    match n, m with
    | 0, _ => omega
    | _ + 1, 0 => omega
    | n + 1, m + 1 =>
      have hstep : ∀ (b2 : Board) (p2 : Point),
          b2.closedNumbers < n → b2.closedNumbers < m →
            cascadeAux n b2 p2 = cascadeAux m b2 p2 :=
        fun b2 p2 h1 h2 => IH n (Nat.lt_succ_self n) m b2 p2 h1 h2
      have hfold : ∀ (pts : List Point) (acc : Board),
          acc.closedNumbers < n → acc.closedNumbers < m →
            pts.foldl (fun b2 q => (cascadeAux n b2 q).getD b2) acc
              = pts.foldl (fun b2 q => (cascadeAux m b2 q).getD b2) acc := by
        intro pts
        induction pts with
        | nil => intro acc h1 h2; rfl
        | cons q pts IHl =>
          intro acc h1 h2
          rw [List.foldl_cons, List.foldl_cons]
          have hq : cascadeAux n acc q = cascadeAux m acc q := hstep acc q h1 h2
          have hle : ((cascadeAux n acc q).getD acc).closedNumbers ≤ acc.closedNumbers := by
            cases hc : cascadeAux n acc q with
            | none => simp
            | some b2 => simpa using cascadeAux_closedNumbers_le n acc q b2 hc
          rw [← hq]
          exact IHl _ (Nat.lt_of_le_of_lt hle h1) (Nat.lt_of_le_of_lt hle h2)
      rw [cascadeAux, cascadeAux]
      cases hat : b.at p with
      | none => rfl
      | some el =>
        match el with
        | .Number .Open c => rfl
        | .Mine .Flagged => rfl
        | .Number .Flagged c => rfl
        | .Mine .Open => rfl
        | .Mine .Closed => rfl
        | .Number .Closed c =>
          have hlt := closedNumbers_replace_lt b p c hat
          by_cases hc0 : c = 0
          · simp only [hc0, if_pos rfl]
            have hb2n : (b.replace p (.Number .Open (0 : Int))).closedNumbers < n := by
              have := hlt
              simp only [hc0] at this
              omega
            have hb2m : (b.replace p (.Number .Open (0 : Int))).closedNumbers < m := by
              have := hlt
              simp only [hc0] at this
              omega
            rw [hfold _ _ hb2n hb2m]
          · simp only [if_neg hc0]

/-! The knight neighbourhood, related to the spec-side offset list. -/

/-- The source construction of `surrounding_knight_points` enumerates exactly
the eight spec offsets, in the same order, bounds-filtered. -/
theorem surrounding_knight_points_eq (b : Board) (p : Point) :
    b.surrounding_knight_points p =
      (knightOffsets.map fun d => Point.mk (p.x + d.1) (p.y + d.2)).filter
        fun q => (b.at q).isSome := by
  have e1 : (([-2, -1, 1, 2] : List Int).filter fun dy =>
      ((-2 : Int)).natAbs ≠ dy.natAbs) = [-1, 1] := by decide
  have e2 : (([-2, -1, 1, 2] : List Int).filter fun dy =>
      ((-1 : Int)).natAbs ≠ dy.natAbs) = [-2, 2] := by decide
  have e3 : (([-2, -1, 1, 2] : List Int).filter fun dy =>
      ((1 : Int)).natAbs ≠ dy.natAbs) = [-2, 2] := by decide
  have e4 : (([-2, -1, 1, 2] : List Int).filter fun dy =>
      ((2 : Int)).natAbs ≠ dy.natAbs) = [-1, 1] := by decide
  simp only [Board.surrounding_knight_points, List.map_cons, List.map_nil,
    e1, e2, e3, e4, List.flatten_cons, List.flatten_nil, List.append_nil,
    ← List.filter_append]
  simp only [knightOffsets, List.map_cons, List.map_nil]
  rfl

/-- The mine count computed by the source over `surrounding_knight_points`
equals the spec-side offset count. -/
theorem knight_mine_count_eq (b : Board) (q : Point) :
    ((b.surrounding_knight_points q).filter fun p' => (b.at p').any isMine).length
      = specKnightMineCount b q := by
  rw [surrounding_knight_points_eq, List.filter_filter]
  have hpt : ∀ r : Point,
      (((b.at r).any isMine) && ((b.at r).isSome)) = (b.at r).any isMine := by
    intro r
    cases b.at r <;> simp
  rw [List.filter_congr fun r _ => hpt r]
  rw [← List.countP_eq_length_filter, List.countP_map,
    List.countP_eq_length_filter]
  unfold specKnightMineCount
  rfl

/-- Rebuilding a well-formed grid cell by cell through `at` reproduces it. -/
theorem grid_eta (b : Board) (hwf : b.wf) :
    ((List.range b.height).map fun y =>
      (List.range b.width).map fun x => unwrapEl (b.at (Point.new x y))) = b.map := by
  obtain ⟨hlen, hrow⟩ := hwf
  apply List.ext_getElem
  · simp [hlen]
  · intro y hy1 hy2
    have hy : y < b.height := by simpa using hy1
    rw [List.getElem_map, List.getElem_range]
    apply List.ext_getElem
    · have : b.map[y] ∈ b.map := List.getElem_mem hy2
      simp [hrow _ this]
    · intro x hx1 hx2
      have hx : x < b.width := by simpa using hx1
      rw [List.getElem_map, List.getElem_range]
      unfold Board.at unwrapEl Point.new
      rw [if_neg (by dsimp only; omega)]
      have h1 : (((x : Int)).toNat) = x := by omega
      have h2 : (((y : Int)).toNat) = y := by omega
      dsimp only
      simp only [h1, h2, Option.getD_some, List.getD_eq_getElem?_getD]
      rw [List.getElem?_eq_getElem hy2]
      simp only [Option.getD_some]
      rw [List.getElem?_eq_getElem hx2]
      simp only [Option.getD_some]

/-- Two boards with equal fields are equal. -/
theorem Board.eq_of_fields {a b : Board} (h1 : a.map = b.map)
    (h2 : a.missing_points = b.missing_points) (h3 : a.width = b.width)
    (h4 : a.height = b.height) (h5 : a.mines = b.mines)
    (h6 : a.state = b.state) : a = b := by
  cases a
  cases b
  simp_all

/-! Claim theorems. -/

/-- C10: flagging a Closed `Number` cell decrements `missing_points` by
exactly one and recomputes the state (`Won` when the counter reaches 0,
`Playing` from `Ready` otherwise), while flagging a Flagged cell leaves
`missing_points` unchanged. -/
theorem flag_item_missing_points_spec (b : Board) (p : Point) :
    (∀ c : Int, b.at p = some (.Number .Closed c) →
      (b.flag_item p).missing_points = b.missing_points - 1 ∧
      (b.flag_item p).state =
        (if b.missing_points - 1 = 0 then BoardState.Won
         else if b.state = .Ready then .Playing else b.state)) ∧
    (∀ el : MapElement, b.at p = some el → cellState el = .Flagged →
      (b.flag_item p).missing_points = b.missing_points) := by
  constructor
  · intro c h
    simp [Board.flag_item, Board.replace, h]
  · intro el h hfl
    match el with
    | .Mine st =>
      have hst : st = .Flagged := hfl
      subst hst
      simp [Board.flag_item, Board.replace, h]
    | .Number st c =>
      have hst : st = .Flagged := hfl
      subst hst
      simp [Board.flag_item, Board.replace, h]

/-- Witness for C10 on the Ready fixture: flagging the Closed cell (3,1)
drops `missing_points` from 8 to 7. -/
theorem flag_item_missing_points_spec_witness :
    (bReady.flag_item ⟨3, 1⟩).missing_points = bReady.missing_points - 1 :=
  ((flag_item_missing_points_spec bReady ⟨3, 1⟩).1 0 (by decide)).1

/-- C4: for an in-bounds point, `cascade_open_item` returns `none` exactly
when the cell is an Open `Number` or is Flagged (either variant). -/
theorem cascade_open_item_none_iff (b : Board) (p : Point) (el : MapElement)
    (h : b.at p = some el) :
    b.cascade_open_item p = none ↔
      ((∃ c, el = .Number .Open c) ∨ el = .Mine .Flagged ∨
        ∃ c, el = .Number .Flagged c) := by
  simp only [Board.cascade_open_item, cascadeAux, h]
  match el with
  | .Number .Open c => simp
  | .Mine .Flagged => simp
  | .Number .Flagged c => simp
  | .Mine .Open => simp
  | .Mine .Closed => simp
  | .Number .Closed c =>
    by_cases hc0 : c = 0 <;> simp [hc0]

/-- Witness for C4: on the flagged fixture cell the cascade is refused. -/
theorem cascade_open_item_none_iff_witness :
    (bReady.flag_item ⟨3, 1⟩).cascade_open_item ⟨3, 1⟩ = none :=
  (cascade_open_item_none_iff (bReady.flag_item ⟨3, 1⟩) ⟨3, 1⟩
    (.Number .Flagged 0) (by decide)).mpr (Or.inr (Or.inr ⟨0, rfl⟩))

/-- C5: cascade-opening a Closed (or, defensively, Open) Mine returns the
input board with only the state forced to Failed: grid, `missing_points`,
width, height and mines are untouched, and in particular the mine's own
cell state is not set to Open. -/
theorem cascade_open_item_mine_failed (b : Board) (p : Point)
    (st : MapElementCellState) (h : b.at p = some (.Mine st))
    (hst : st = .Closed ∨ st = .Open) :
    b.cascade_open_item p = some { b with state := BoardState.Failed } := by
  rcases hst with rfl | rfl <;> simp only [Board.cascade_open_item, cascadeAux, h]

/-- Witness for C5 on the NotReady fixture: opening the mine at (0,0). -/
theorem cascade_open_item_mine_failed_witness :
    board5x2.cascade_open_item ⟨0, 0⟩ =
      some { board5x2 with state := BoardState.Failed } :=
  cascade_open_item_mine_failed board5x2 ⟨0, 0⟩ .Closed (by decide) (Or.inl rfl)

/-- C1 fails on the code: on a freshly numbered 1 by 1 board, a single
`flag_item` call drives `missing_points` to 0 (state `Won`) while the sole
`Number` cell is Flagged, not Open. -/
theorem missing_points_zero_without_open :
    bMini.state = .Ready ∧ bMini.missing_points = 1 ∧
    (bMini.flag_item ⟨0, 0⟩).missing_points = 0 ∧
    (bMini.flag_item ⟨0, 0⟩).state = .Won ∧
    (bMini.flag_item ⟨0, 0⟩).at ⟨0, 0⟩ = some (.Number .Flagged 0) := by
  decide

/-- C3 fails on the code: `flag_item` on the Closed `Number` cell of the
1 by 1 fixture decrements `missing_points` from 1 to 0. -/
theorem flag_item_decrements_missing_points :
    bMini.missing_points = 1 ∧
    bMini.at ⟨0, 0⟩ = some (.Number .Closed 0) ∧
    (bMini.flag_item ⟨0, 0⟩).missing_points = 0 := by
  decide

/-- C9 fails on the code: on the numbered 5 by 2 fixture the cascade at
(3,1) opens only (3,1) and (1,0) — the knight neighbourhood — leaving
(2,0), (4,0), (2,1), (4,1) Closed, unlike the six cells the claim lists. -/
theorem cascade_fixture_opens_two_cells :
    ∃ b', bReady.cascade_open_item ⟨3, 1⟩ = some b' ∧
      (b'.at ⟨3, 1⟩).map cellState = some .Open ∧
      (b'.at ⟨1, 0⟩).map cellState = some .Open ∧
      (b'.at ⟨2, 0⟩).map cellState = some .Closed ∧
      (b'.at ⟨4, 0⟩).map cellState = some .Closed ∧
      (b'.at ⟨2, 1⟩).map cellState = some .Closed ∧
      (b'.at ⟨4, 1⟩).map cellState = some .Closed ∧
      b'.state = .Playing ∧ b'.missing_points = 6 :=
  ⟨(bReady.cascade_open_item ⟨3, 1⟩).getD board5x2, by decide⟩

/-- C2 fails as stated: double-flagging the Closed `Number` cell (3,1) of
the Ready fixture does not return the original board (its `missing_points`
drops to 7 and its state moves to Playing). -/
theorem flag_flag_not_involutive_cex :
    bReady.at ⟨3, 1⟩ = some (.Number .Closed 0) ∧
    (bReady.flag_item ⟨3, 1⟩).flag_item ⟨3, 1⟩ ≠ bReady := by
  decide

/-- Casting a point's coordinates through `toNat` and back is the identity
when they are non-negative. -/
theorem Point.new_toNat (q : Point) (hx : 0 ≤ q.x) (hy : 0 ≤ q.y) :
    Point.new q.x.toNat q.y.toNat = q := by
  have h1 : ((q.x.toNat : Int)) = q.x := by omega
  have h2 : ((q.y.toNat : Int)) = q.y := by omega
  unfold Point.new
  rw [h1, h2]

/-- The cascade fold never increases the measure of its accumulator. -/
theorem foldl_cascade_le (n : Nat) (pts : List Point) :
    ∀ acc : Board,
      (pts.foldl (fun b2 q => (cascadeAux n b2 q).getD b2) acc).closedNumbers
        ≤ acc.closedNumbers := by
  induction pts with
  | nil => intro acc; simp
  | cons q pts IHl =>
    intro acc
    rw [List.foldl_cons]
    refine le_trans (IHl _) ?_
    cases hc : cascadeAux n acc q with
    | none => simp
    | some b2 => simpa using cascadeAux_closedNumbers_le n acc q b2 hc

/-- C6: the cascade recursion terminates within the measure bound: the
measure is at most `width * height`, any fuel above the measure computes the
same result as `cascade_open_item` (the recursion needs no more than
`closedNumbers` nested opens), revisiting an Open cell returns `none`
without recursing, and a successful open of a Closed `Number` cell strictly
shrinks the set of Closed `Number` cells. -/
theorem cascade_open_item_terminates (b : Board) (p : Point) :
    b.closedNumbers ≤ b.width * b.height ∧
    (∀ n : Nat, b.closedNumbers < n → cascadeAux n b p = b.cascade_open_item p) ∧
    (∀ c : Int, b.at p = some (.Number .Open c) → b.cascade_open_item p = none) ∧
    (∀ (c : Int) (b' : Board), b.at p = some (.Number .Closed c) →
      b.cascade_open_item p = some b' → b'.closedNumbers < b.closedNumbers) := by
  refine ⟨?_, ?_, ?_, ?_⟩
  · unfold Board.closedNumbers
    have hbound : ∀ v ∈ (List.range b.height).map (fun y =>
        ((List.range b.width).filter fun x =>
          (b.at (Point.new x y)).any isClosedNumber).length), v ≤ b.width := by
      intro v hv
      rw [List.mem_map] at hv
      obtain ⟨y, _, rfl⟩ := hv
      calc ((List.range b.width).filter fun x =>
            (b.at (Point.new x y)).any isClosedNumber).length
          ≤ (List.range b.width).length := List.length_filter_le _ _
        _ = b.width := List.length_range b.width
    have hs := List.sum_le_card_nsmul _ b.width hbound
    rw [List.length_map, List.length_range] at hs
    calc ((List.range b.height).map fun y =>
          ((List.range b.width).filter fun x =>
            (b.at (Point.new x y)).any isClosedNumber).length).sum
        ≤ b.height • b.width := hs
      _ = b.width * b.height := by rw [smul_eq_mul, Nat.mul_comm]
  · intro n hn
    exact cascadeAux_fuel_congr n (b.closedNumbers + 1) b p hn (Nat.lt_succ_self _)
  · intro c h
    simp only [Board.cascade_open_item, cascadeAux, h]
  · intro c b' h hsome
    have hlt := closedNumbers_replace_lt b p c h
    simp only [Board.cascade_open_item, cascadeAux, h] at hsome
    by_cases hc0 : c = 0
    · subst hc0
      rw [if_pos rfl] at hsome
      have hb' := Option.some.inj hsome
      rw [← hb']
      exact Nat.lt_of_le_of_lt (foldl_cascade_le _ _ _) hlt
    · rw [if_neg hc0] at hsome
      have hb' := Option.some.inj hsome
      rw [← hb']
      exact hlt

/-- Witness for C6 on the Ready fixture: any larger fuel (here 20, above the
measure 8) computes the same cascade result at (3,1). -/
theorem cascade_open_item_terminates_witness :
    cascadeAux 20 bReady ⟨3, 1⟩ = bReady.cascade_open_item ⟨3, 1⟩ :=
  (cascade_open_item_terminates bReady ⟨3, 1⟩).2.1 20 (by decide)

/-- The cells produced by `numbers_on_board`, seen through `at`. -/
theorem at_numbers_on_board (b : Board) (q : Point) :
    (numbers_on_board b).at q =
      if 0 ≤ q.x ∧ q.x < (b.width : Int) ∧ 0 ≤ q.y ∧ q.y < (b.height : Int) then
        some (match unwrapEl (b.at q) with
          | .Mine st => .Mine st
          | .Number st count =>
              if count = 0 then
                .Number st
                  ((((b.surrounding_knight_points q).filter
                    fun p' => (b.at p').any isMine).length : Int))
              else .Number st count)
      else none := by
  have hgrid := at_grid b.width b.height
    (fun y x =>
      match unwrapEl (b.at (Point.new x y)) with
      | .Mine st => .Mine st
      | .Number st count =>
          if count = 0 then
            .Number st
              ((((b.surrounding_knight_points (Point.new x y)).filter
                fun p' => (b.at p').any isMine).length : Int))
          else .Number st count)
    (numbers_on_board b) rfl rfl rfl q
  rw [hgrid]
  by_cases hin : 0 ≤ q.x ∧ q.x < (b.width : Int) ∧ 0 ≤ q.y ∧ q.y < (b.height : Int)
  · rw [if_pos hin, if_pos hin, Point.new_toNat q hin.1 hin.2.2.1]
  · rw [if_neg hin, if_neg hin]

/-- C7: on a NotReady board whose `Number` cells all carry count 0,
`numbers_on_board` forces state Ready, keeps the numeric fields, passes
`Mine` cells through unchanged, and gives every `Number` cell the count of
`Mine` cells among its in-bounds knight-move neighbours, keeping its cell
state. -/
theorem numbers_on_board_spec (b : Board)
    (h0 : ∀ (q : Point) (st : MapElementCellState) (c : Int),
      b.at q = some (.Number st c) → c = 0)
    (_hNR : b.state = .NotReady) :
    (numbers_on_board b).state = .Ready ∧
    (numbers_on_board b).width = b.width ∧
    (numbers_on_board b).height = b.height ∧
    (numbers_on_board b).mines = b.mines ∧
    (numbers_on_board b).missing_points = b.missing_points ∧
    (∀ (q : Point) (st : MapElementCellState), b.at q = some (.Mine st) →
      (numbers_on_board b).at q = some (.Mine st)) ∧
    (∀ (q : Point) (st : MapElementCellState) (c : Int),
      b.at q = some (.Number st c) →
      (numbers_on_board b).at q =
        some (.Number st ((specKnightMineCount b q : Int)))) := by
  refine ⟨rfl, rfl, rfl, rfl, rfl, ?_, ?_⟩
  · intro q st h
    have hb := bounds_of_at_eq_some b q _ h
    rw [at_numbers_on_board, if_pos hb, h]
    rfl
  · intro q st c h
    have hb := bounds_of_at_eq_some b q _ h
    have hc := h0 q st c h
    subst hc
    rw [at_numbers_on_board, if_pos hb, h]
    exact congrArg (fun n : Nat => some (MapElement.Number st ((n : Int))))
      (knight_mine_count_eq b q)

/-- Case split for a defaulted list lookup: the result is a member or the
default. -/
theorem getD_cases {α : Type} (l : List α) (i : Nat) (d : α) :
    l.getD i d ∈ l ∨ l.getD i d = d := by
  rcases Nat.lt_or_ge i l.length with h | h
  · left
    rw [List.getD_eq_getElem?_getD, List.getElem?_eq_getElem h, Option.getD_some]
    exact List.getElem_mem h
  · right
    rw [List.getD_eq_getElem?_getD, List.getElem?_eq_none (by omega), Option.getD_none]

/-- Every `Number` cell of the raw 1 by 1 fixture carries count 0. -/
theorem board1x1_counts_zero (q : Point) (st : MapElementCellState) (c : Int)
    (h : board1x1.at q = some (.Number st c)) : c = 0 := by
  unfold Board.at at h
  by_cases hb : q.x < 0 ∨ ((board1x1.width : Int)) ≤ q.x ∨ q.y < 0 ∨
      ((board1x1.height : Int)) ≤ q.y
  · rw [if_pos hb] at h
    exact absurd h (by simp)
  · rw [if_neg hb] at h
    have hcell := Option.some.inj h
    have hmap : board1x1.map = [[MapElement.Number .Closed 0]] := rfl
    rw [hmap] at hcell
    rcases getD_cases ([[MapElement.Number .Closed 0]].getD q.y.toNat [])
      q.x.toNat (.Number .Closed 0) with hmem | heq
    · rw [hcell] at hmem
      rcases getD_cases [[MapElement.Number .Closed 0]] q.y.toNat [] with hrmem | hrq
      · simp only [List.mem_cons, List.not_mem_nil, or_false] at hrmem
        rw [hrmem] at hmem
        simp at hmem
        exact hmem.2
      · rw [hrq] at hmem
        simp at hmem
    · rw [hcell] at heq
      simp at heq
      exact heq.2

/-- Witness for C7 on the raw 1 by 1 fixture. -/
theorem numbers_on_board_spec_witness :
    (numbers_on_board board1x1).at ⟨0, 0⟩ =
      some (.Number .Closed ((specKnightMineCount board1x1 ⟨0, 0⟩ : Int))) :=
  (numbers_on_board_spec board1x1 board1x1_counts_zero rfl).2.2.2.2.2.2
    ⟨0, 0⟩ .Closed 0 (by decide)

/-- C8: `surrounding_knight_points p` contains exactly the in-bounds points
at the eight knight offsets (dx, dy with dx, dy in the set of minus-two,
minus-one, one, two and distinct absolute values); it never contains a
Moore-neighbourhood point (Chebyshev distance at most 1) and has at most 8
elements. -/
theorem surrounding_knight_points_spec (b : Board) (p q : Point) :
    (q ∈ b.surrounding_knight_points p ↔
      ∃ dx dy : Int, dx ∈ ([-2, -1, 1, 2] : List Int) ∧
        dy ∈ ([-2, -1, 1, 2] : List Int) ∧ dx.natAbs ≠ dy.natAbs ∧
        q = ⟨p.x + dx, p.y + dy⟩ ∧
        0 ≤ q.x ∧ q.x < (b.width : Int) ∧ 0 ≤ q.y ∧ q.y < (b.height : Int)) ∧
    (q ∈ b.surrounding_knight_points p →
      ¬(max ((q.x - p.x)).natAbs ((q.y - p.y)).natAbs ≤ 1)) ∧
    (b.surrounding_knight_points p).length ≤ 8 := by
  refine ⟨?_, ?_, ?_⟩
  · constructor
    · intro hmem
      rw [surrounding_knight_points_eq, List.mem_filter, List.mem_map] at hmem
      obtain ⟨⟨d, hd, hdq⟩, hsome⟩ := hmem
      refine ⟨d.1, d.2, ?_, ?_, ?_, hdq.symm, ?_⟩
      · simp only [knightOffsets, List.mem_cons, List.not_mem_nil, or_false] at hd
        rcases hd with rfl | rfl | rfl | rfl | rfl | rfl | rfl | rfl <;> decide
      · simp only [knightOffsets, List.mem_cons, List.not_mem_nil, or_false] at hd
        rcases hd with rfl | rfl | rfl | rfl | rfl | rfl | rfl | rfl <;> decide
      · simp only [knightOffsets, List.mem_cons, List.not_mem_nil, or_false] at hd
        rcases hd with rfl | rfl | rfl | rfl | rfl | rfl | rfl | rfl <;> decide
      · exact (at_isSome_iff b q).mp hsome
    · rintro ⟨dx, dy, hdx, hdy, hne, rfl, hb1, hb2, hb3, hb4⟩
      rw [surrounding_knight_points_eq, List.mem_filter]
      constructor
      · rw [List.mem_map]
        refine ⟨(dx, dy), ?_, rfl⟩
        simp only [List.mem_cons, List.not_mem_nil, or_false] at hdx hdy
        rcases hdx with rfl | rfl | rfl | rfl <;> rcases hdy with rfl | rfl | rfl | rfl <;>
          first
            | exact absurd rfl hne
            | decide
      · rw [at_isSome_iff]
        exact ⟨hb1, hb2, hb3, hb4⟩
  · intro hmem
    rw [surrounding_knight_points_eq, List.mem_filter, List.mem_map] at hmem
    obtain ⟨⟨d, hd, hdq⟩, hsome⟩ := hmem
    rw [← hdq]
    have hx : p.x + d.1 - p.x = d.1 := by ring
    have hy : p.y + d.2 - p.y = d.2 := by ring
    dsimp only
    rw [hx, hy]
    simp only [knightOffsets, List.mem_cons, List.not_mem_nil, or_false] at hd
    rcases hd with rfl | rfl | rfl | rfl | rfl | rfl | rfl | rfl <;> decide
  · rw [surrounding_knight_points_eq]
    refine le_trans (List.length_filter_le _ _) ?_
    rw [List.length_map]
    rfl

/-- Witness for C8: the knight neighbour (1,0) of (3,1) on the fixture is
not in the Moore neighbourhood. -/
theorem surrounding_knight_points_spec_witness :
    ¬(max ((((1 : Int)) - 3)).natAbs ((((0 : Int)) - 1)).natAbs ≤ 1) :=
  (surrounding_knight_points_spec bReady ⟨3, 1⟩ ⟨1, 0⟩).2.1 (by decide)

/-- The grid produced by `replace`, unfolded. -/
theorem replace_map (b : Board) (p : Point) (el : MapElement) :
    (b.replace p el).map = (List.range b.height).map fun y =>
      (List.range b.width).map fun x =>
        if Point.new x y = p then el else unwrapEl (b.at (Point.new x y)) := rfl

/-- Replacing over a `Mine` cell keeps `missing_points`. -/
theorem replace_missing_of_mine (b : Board) (p : Point) (el : MapElement)
    (s : MapElementCellState) (h : b.at p = some (.Mine s)) :
    (b.replace p el).missing_points = b.missing_points := by
  simp [Board.replace, h]

/-- Replacing over a `Mine` cell keeps the state when the counter is not 0
and the board is not Ready. -/
theorem replace_state_of_mine (b : Board) (p : Point) (el : MapElement)
    (s : MapElementCellState) (h : b.at p = some (.Mine s))
    (hmp : b.missing_points ≠ 0) (hstate : b.state ≠ .Ready) :
    (b.replace p el).state = b.state := by
  simp [Board.replace, h, hmp, hstate]

/-- Core of the amended C2: toggling a Mine cell there and back restores the
board, on a well-formed board that is not Ready and has a non-zero counter. -/
theorem flag_flag_mine_core (b : Board) (p : Point) (s s' : MapElementCellState)
    (hwf : b.wf) (hat : b.at p = some (.Mine s))
    (h1 : b.flag_item p = b.replace p (.Mine s'))
    (h2 : ∀ b2 : Board, b2.at p = some (.Mine s') →
      b2.flag_item p = b2.replace p (.Mine s))
    (hstate : b.state ≠ .Ready) (hmp : b.missing_points ≠ 0) :
    (b.flag_item p).flag_item p = b := by
  have hb := bounds_of_at_eq_some b p _ hat
  rw [h1]
  have hb1at : (b.replace p (.Mine s')).at p = some (.Mine s') := by
    rw [at_replace, if_pos hb, if_pos rfl]
  rw [h2 _ hb1at]
  have hb1miss : (b.replace p (.Mine s')).missing_points = b.missing_points :=
    replace_missing_of_mine b p _ s hat
  have hb1state : (b.replace p (.Mine s')).state = b.state :=
    replace_state_of_mine b p _ s hat hmp hstate
  apply Board.eq_of_fields
  · rw [replace_map]
    have hh : (b.replace p (.Mine s')).height = b.height := rfl
    have hw : (b.replace p (.Mine s')).width = b.width := rfl
    rw [hh, hw, ← grid_eta b hwf]
    apply List.map_congr_left
    intro y hy
    apply List.map_congr_left
    intro x hx
    rw [List.mem_range] at hy hx
    by_cases hpq : Point.new x y = p
    · rw [if_pos hpq, hpq, hat]
      rfl
    · rw [if_neg hpq]
      have hcopy : (b.replace p (.Mine s')).at (Point.new x y) = b.at (Point.new x y) := by
        rw [at_replace,
          if_pos (by unfold Point.new; refine ⟨by simp, by simp [hx], by simp, by simp [hy]⟩),
          if_neg hpq]
      rw [hcopy]
  · rw [replace_missing_of_mine _ p _ s' hb1at, hb1miss]
  · rfl
  · rfl
  · rfl
  · rw [replace_state_of_mine _ p _ s' hb1at (by rw [hb1miss]; exact hmp)
      (by rw [hb1state]; exact hstate), hb1state]

/-- C2 (amended): on a well-formed board whose state is not Ready and whose
`missing_points` is not 0, double-flagging an in-bounds Mine cell that is
not Open returns the original board. -/
theorem flag_flag_mine_id (b : Board) (p : Point) (st : MapElementCellState)
    (hwf : b.wf) (hat : b.at p = some (.Mine st)) (hst : st ≠ .Open)
    (hstate : b.state ≠ .Ready) (hmp : b.missing_points ≠ 0) :
    (b.flag_item p).flag_item p = b := by
  cases st with
  | Open => exact absurd rfl hst
  | Closed =>
    refine flag_flag_mine_core b p .Closed .Flagged hwf hat ?_ ?_ hstate hmp
    · simp [Board.flag_item, hat]
    · intro b2 h
      simp [Board.flag_item, h]
  | Flagged =>
    refine flag_flag_mine_core b p .Flagged .Closed hwf hat ?_ ?_ hstate hmp
    · simp [Board.flag_item, hat]
    · intro b2 h
      simp [Board.flag_item, h]

/-- Witness for the amended C2 on the NotReady fixture: double-flagging the
mine at (0,0) restores the board. -/
theorem flag_flag_mine_id_witness :
    (board5x2.flag_item ⟨0, 0⟩).flag_item ⟨0, 0⟩ = board5x2 :=
  flag_flag_mine_id board5x2 ⟨0, 0⟩ .Closed (by decide) (by decide)
    (by decide) (by decide) (by decide)
